import Mathlib

/-!
ModernBlog comment engine — verification of spec claims
=======================================================

Shallow embedding of the comment-thread and moderation code of the
`modernblog` repository (frontend sources under
`src/modernblog/frontend/src/`), together with proofs settling the
spec claims about it.

The embedded pieces are:
* the `Comment` data model from `types.ts` (`is_approved` is a boolean
  in the source — that fact itself is the subject of one claim);
* `countAllComments` from `components/PostEditor.tsx` (Comments file);
* the `CommentThread` rendering recursion (depth handling, action
  gating at `maxDepth = 4`) from the same file;
* the `CommentForm.handleSubmit` flow (validation, anti-spam fields,
  success/held acknowledgement, generic failure message);
* the moderator listing's status filter and the admin moderation
  actions from `routes/admin/edit.$slug.tsx` and `api/client.ts`;
* a sliding-window rate limiter modelled from the spec (its code is
  the Python backend, which is not among the given sources).
-/

/-- The `Comment` interface of `types.ts` (lines 9–20).  `replies` makes
it a finitely branching rose tree.  Timestamps are epoch numbers. -/
inductive Comment : Type where
  | mk
    (id : Nat)
    (post_id : Nat)
    (parent_id : Option Nat)
    (author_name : String)
    (author_email : Option String)
    (content : String)
    (is_approved : Bool)
    (ip_address : Option String)
    (created_at : Nat)
    (replies : List Comment)

/-- Field accessor: the comment's id. -/
def Comment.id : Comment → Nat
  | .mk i _ _ _ _ _ _ _ _ _ => i

/-- Field accessor: moderation flag — the source's `is_approved: boolean`. -/
def Comment.is_approved : Comment → Bool
  | .mk _ _ _ _ _ _ a _ _ _ => a

/-- Field accessor: the nested replies. -/
def Comment.replies : Comment → List Comment
  | .mk _ _ _ _ _ _ _ _ _ rs => rs

/-- Function `countAllComments` from `PostEditor.tsx` lines 452–456:
`comments.reduce((count, comment) => count + 1 + countAllComments(comment.replies || []), 0)`.
The `reduce` is unfolded into structural recursion over the list. -/
def countAllComments : List Comment → Nat
  | [] => 0
  | .mk _ _ _ _ _ _ _ _ _ rs :: rest =>
      1 + countAllComments rs + countAllComments rest

/-- Preorder listing of every node of a comment forest (each comment and,
recursively, all of its replies).  Used as an independent notion of "the
nodes of the tree" to measure the count utility against. -/
def flattenAll : List Comment → List Comment
  | [] => []
  | c@(.mk _ _ _ _ _ _ _ _ _ rs) :: rest =>
      c :: (flattenAll rs ++ flattenAll rest)

/-- Helper to build concrete comments compactly (fills the fields the
claims do not vary). -/
def mkC (i : Nat) (approved : Bool) (rs : List Comment) : Comment :=
  .mk i 1 none "alice" none "hello" approved none i rs

/-- A tree with comments at depths 0, 1, 1, 2: one root with two replies,
the second of which has one reply. -/
def depthExampleTree : Comment :=
  mkC 1 true [mkC 2 true [], mkC 3 true [mkC 4 true []]]

theorem countAllComments_eq_length_flattenAll (cs : List Comment) :
    countAllComments cs = (flattenAll cs).length := by
  match cs with
  | [] => simp [countAllComments, flattenAll]
  | .mk i p pa n e co a ip cr rs :: rest =>
      simp [countAllComments, flattenAll,
        countAllComments_eq_length_flattenAll rs,
        countAllComments_eq_length_flattenAll rest]
      omega

example : countAllComments [depthExampleTree] = 4 := by
  simp [countAllComments, depthExampleTree, mkC]

/-! ## Rendering of the comment thread (`CommentThread`, PostEditor.tsx 617–717) -/

/-- Constant `maxDepth` from `CommentThread` (line 628). -/
def maxDepth : Nat := 4

/-- What the rendering of one `CommentThread` node exposes: the comment's
id, the `depth` prop it was rendered with, whether the reply button is
offered (the `depth < maxDepth` guard on the actions block, line 651),
and whether the admin delete button is offered (same guard plus the
`isAdmin()` check, line 656). -/
structure RenderEntry where
  cid : Nat
  depth : Nat
  canReply : Bool
  canDelete : Bool
  deriving DecidableEq, Repr

mutual

/-- One `CommentThread` component call: renders the comment itself at the
given depth, then recursively renders `comment.replies` with `depth + 1`
(lines 701–714) — with no cap on the recursion. -/
def renderComment (admin : Bool) (depth : Nat) : Comment → List RenderEntry
  | .mk i _ _ _ _ _ _ _ _ rs =>
      ⟨i, depth, decide (depth < maxDepth),
        decide (depth < maxDepth) && admin⟩ :: renderReplies admin (depth + 1) rs

/-- The `.map` over a reply list inside `CommentThread` (and the top-level
`comments.map` in `Comments`, which renders each root with the default
`depth = 0`). -/
def renderReplies (admin : Bool) (depth : Nat) : List Comment → List RenderEntry
  | [] => []
  | c :: cs => renderComment admin depth c ++ renderReplies admin depth cs

end

/-- A chain of six comments: comment 6 sits 5 levels below the root. -/
def chain6 : Comment :=
  mkC 1 true [mkC 2 true [mkC 3 true [mkC 4 true [mkC 5 true [mkC 6 true []]]]]]

example :
    renderReplies true 0 [chain6] =
      [⟨1, 0, true, true⟩, ⟨2, 1, true, true⟩, ⟨3, 2, true, true⟩,
       ⟨4, 3, true, true⟩, ⟨5, 4, false, false⟩, ⟨6, 5, false, false⟩] := by
  simp [renderReplies, renderComment, chain6, mkC, maxDepth]

theorem renderReplies_map_cid (admin : Bool) (d : Nat) (cs : List Comment) :
    (renderReplies admin d cs).map RenderEntry.cid = (flattenAll cs).map Comment.id := by
  match cs with
  | [] => simp [renderReplies, flattenAll]
  | .mk i p pa n e co a ip cr rs :: rest =>
      simp [renderReplies, renderComment, flattenAll, Comment.id,
        renderReplies_map_cid admin (d + 1) rs,
        renderReplies_map_cid admin d rest]

theorem mem_renderReplies_spec (admin : Bool) (d : Nat) (cs : List Comment) :
    ∀ e ∈ renderReplies admin d cs,
      e.canReply = decide (e.depth < maxDepth) ∧
      e.canDelete = (decide (e.depth < maxDepth) && admin) ∧ d ≤ e.depth := by
  match cs with
  | [] => simp [renderReplies]
  | .mk i p pa n em co a ip cr rs :: rest =>
      intro e he
      simp only [renderReplies, renderComment, List.cons_append, List.mem_cons,
        List.mem_append] at he
      rcases he with he | he | he
      · subst he
        refine ⟨rfl, rfl, le_refl d⟩
      · obtain ⟨h1, h2, h3⟩ := mem_renderReplies_spec admin (d + 1) rs e he
        exact ⟨h1, h2, by omega⟩
      · exact mem_renderReplies_spec admin d rest e he

/-- C1: `countAllComments` applied to any comment tree returns the number
of nodes of the tree (the length of its preorder flattening — each node
contributing exactly once, at any nesting depth); in particular, on the
tree with comments at depths 0, 1, 1, 2 it returns 4. -/
theorem countAllComments_counts_every_node :
    (∀ cs : List Comment, countAllComments cs = (flattenAll cs).length) ∧
    countAllComments [depthExampleTree] = 4 :=
  ⟨countAllComments_eq_length_flattenAll,
    by simp [countAllComments, depthExampleTree, mkC]⟩

/-- C2 counterexample: rendering a chain of six comments shows comment 6
(5 levels below root) at depth 5, not at the cap `maxDepth = 4` — the
rendering does not flatten deep replies at the cap boundary. -/
theorem render_does_not_flatten_at_cap :
    renderReplies true 0 [chain6] =
      [⟨1, 0, true, true⟩, ⟨2, 1, true, true⟩, ⟨3, 2, true, true⟩,
       ⟨4, 3, true, true⟩, ⟨5, 4, false, false⟩, ⟨6, 5, false, false⟩] ∧
    (5 : Nat) ≠ maxDepth := by
  refine ⟨?_, by decide⟩
  simp [renderReplies, renderComment, chain6, mkC, maxDepth]

/-- C2 amended: every comment of the tree is rendered exactly once (the
rendered ids are exactly the preorder flattening of the tree — deep
replies are never dropped), but at its true depth, which grows without
bound past `maxDepth`; on the six-comment chain the rendered depths are
0, 1, 2, 3, 4, 5. -/
theorem render_shows_every_comment_at_true_depth :
    (∀ (admin : Bool) (d : Nat) (cs : List Comment),
        (renderReplies admin d cs).map RenderEntry.cid =
          (flattenAll cs).map Comment.id) ∧
    (renderReplies true 0 [chain6]).map RenderEntry.depth = [0, 1, 2, 3, 4, 5] :=
  ⟨renderReplies_map_cid,
    by simp [renderReplies, renderComment, chain6, mkC]⟩

/-- C10: in the rendered thread, the reply and delete actions are offered
only below `maxDepth = 4`: any entry offering either action has depth < 4,
a reply to such an entry is created at depth ≤ 4 (parent at depth ≤ 3),
and an entry at depth ≥ 4 offers neither action. -/
theorem actions_gated_by_depth_cap (admin : Bool) (d : Nat) (cs : List Comment)
    (e : RenderEntry) (he : e ∈ renderReplies admin d cs) :
    (e.canReply = true ∨ e.canDelete = true → e.depth < maxDepth) ∧
    (e.canReply = true → e.depth + 1 ≤ maxDepth) ∧
    (maxDepth ≤ e.depth → e.canReply = false ∧ e.canDelete = false) := by
  obtain ⟨h1, h2, _⟩ := mem_renderReplies_spec admin d cs e he
  refine ⟨?_, ?_, ?_⟩
  · rintro (hr | hd)
    · rw [hr] at h1
      exact of_decide_eq_true h1.symm
    · rw [hd] at h2
      have := Bool.and_eq_true _ _ ▸ h2.symm
      exact of_decide_eq_true this.1
  · intro hr
    rw [hr] at h1
    exact Nat.succ_le_of_lt (of_decide_eq_true h1.symm)
  · intro hge
    have hdec : decide (e.depth < maxDepth) = false :=
      decide_eq_false (Nat.not_lt.mpr hge)
    rw [hdec] at h1 h2
    simp at h1 h2
    exact ⟨h1, h2⟩

theorem actions_gated_by_depth_cap_witness :
    ((⟨1, 0, true, true⟩ : RenderEntry) ∈ renderReplies true 0 [chain6]) ∧
    ((⟨1, 0, true, true⟩ : RenderEntry).canReply = true →
      (⟨1, 0, true, true⟩ : RenderEntry).depth + 1 ≤ maxDepth) := by
  have hmem : (⟨1, 0, true, true⟩ : RenderEntry) ∈ renderReplies true 0 [chain6] := by
    simp [renderReplies, renderComment, chain6, mkC, maxDepth]
  exact ⟨hmem, (actions_gated_by_depth_cap true 0 [chain6] _ hmem).2.1⟩

/-! ## Moderation state as the repository represents it -/

/-- The status badge of the admin comments table
(`routes/admin/edit.$slug.tsx` lines 608–616): it renders
`admin.comments.approved` when `is_approved` and `admin.comments.pending`
otherwise — there is no third rendering. -/
def statusBadgeKey (c : Comment) : String :=
  if c.is_approved then "admin.comments.approved" else "admin.comments.pending"

/-- Modelled from the spec: the backend status update behind the
`approve` moderation action (`PUT /api/comments/{id}/approve`, called by
`approveComment` in `api/client.ts`; the Python backend is not among the
given sources).  The spec's Moderation State Machine moves the comment to
`Approved`; the repository's `Comment` record (`types.ts`) carries
moderation state only in the boolean `is_approved`, so the updated record
has `is_approved = true`. -/
def applyApprove : Comment → Comment
  | .mk i p pa n e co _ ip cr rs => .mk i p pa n e co true ip cr rs

/-- Modelled from the spec: the backend status update behind the
`reject` moderation action (`PUT /api/comments/{id}/reject`, called by
`rejectComment` in `api/client.ts`; the Python backend is not among the
given sources).  The spec's Moderation State Machine moves the comment to
`Rejected`; the repository's `Comment` record (`types.ts`) carries
moderation state only in the boolean `is_approved`, so the updated record
has `is_approved = false`. -/
def applyReject : Comment → Comment
  | .mk i p pa n e co _ ip cr rs => .mk i p pa n e co false ip cr rs

/-- The moderation actions of the admin comments table. -/
inductive AdminAction : Type where
  | approve
  | reject
  | delete
  deriving DecidableEq, Repr

/-- The actions the admin comments table offers for one comment
(`routes/admin/edit.$slug.tsx` lines 617–643): approve is rendered when
`!comment.is_approved`, reject when `comment.is_approved`, delete
always. -/
def offeredActions (c : Comment) : List AdminAction :=
  (if c.is_approved = false then [AdminAction.approve] else []) ++
  (if c.is_approved = true then [AdminAction.reject] else []) ++
  [AdminAction.delete]

/-- A comment sitting in the moderation queue, never moderated. -/
def pendingComment : Comment := mkC 7 false []

/-- An approved comment, before the moderator rejects it. -/
def approvedComment : Comment := mkC 7 true []

/-- C3 counterexample: after the reject action, the rejected comment's
record is *equal* to that of the never-moderated pending comment, and
the admin badge renders both as `admin.comments.pending` — the data
model cannot distinguish Rejected from Pending, so the status is not a
three-valued one. -/
theorem rejected_equals_pending :
    applyReject approvedComment = pendingComment ∧
    statusBadgeKey (applyReject approvedComment) = statusBadgeKey pendingComment ∧
    statusBadgeKey pendingComment = "admin.comments.pending" := by
  refine ⟨rfl, rfl, ?_⟩
  simp [statusBadgeKey, pendingComment, mkC, Comment.is_approved]

/-- C3 amended: moderation status in the data model is the boolean
`is_approved` — exactly two representable states; rejecting a comment
yields the not-approved state, indistinguishable from Pending, and the
admin badge renders every comment as either approved or pending (never a
third value). -/
theorem status_is_two_valued :
    ∀ c : Comment,
      (c.is_approved = true ∨ c.is_approved = false) ∧
      (applyReject c).is_approved = false ∧
      (statusBadgeKey c = "admin.comments.approved" ∨
        statusBadgeKey c = "admin.comments.pending") ∧
      statusBadgeKey (applyReject c) = "admin.comments.pending" := by
  intro c
  obtain ⟨i, p, pa, n, e, co, a, ip, cr, rs⟩ := c
  refine ⟨?_, ?_, ?_, ?_⟩
  · cases a <;> simp [Comment.is_approved]
  · rfl
  · cases a <;> simp [statusBadgeKey, Comment.is_approved]
  · rfl

/-- C4 counterexample: for a rejected comment (not-approved record), the
moderation interface offers the approve action, and applying it yields an
approved comment — `Rejected -> Approved` is reachable in one offered
action. -/
theorem rejected_comment_can_be_approved :
    AdminAction.approve ∈ offeredActions (applyReject approvedComment) ∧
    (applyApprove (applyReject approvedComment)).is_approved = true := by
  constructor
  · simp [offeredActions, applyReject, approvedComment, mkC, Comment.is_approved]
  · rfl

/-- C4 amended: because a rejected comment is stored as not-approved, the
moderation interface offers the approve action for every not-approved
comment — including previously rejected ones — and that action moves it
to approved; `Rejected -> Approved` is directly reachable. -/
theorem approve_offered_for_every_unapproved (c : Comment)
    (h : c.is_approved = false) :
    AdminAction.approve ∈ offeredActions c ∧
    (applyApprove c).is_approved = true := by
  obtain ⟨i, p, pa, n, e, co, a, ip, cr, rs⟩ := c
  simp [Comment.is_approved] at h
  subst h
  exact ⟨by simp [offeredActions, Comment.is_approved], rfl⟩

theorem approve_offered_for_every_unapproved_witness :
    pendingComment.is_approved = false ∧
    (AdminAction.approve ∈ offeredActions pendingComment ∧
      (applyApprove pendingComment).is_approved = true) :=
  ⟨rfl, approve_offered_for_every_unapproved pendingComment rfl⟩

/-! ## The moderator listing's status filter -/

/-- The TypeScript union `'all' | 'pending' | 'approved'` used for the
admin comments filter state (`edit.$slug.tsx` line 65) and for the
`status` argument of `getAllComments` (`api/client.ts` lines 109–121). -/
inductive StatusFilter : Type where
  | all
  | pending
  | approved
  deriving DecidableEq, Repr

/-- The string each filter value serializes to in the query string. -/
def filterValue : StatusFilter → String
  | .all => "all"
  | .pending => "pending"
  | .approved => "approved"

/-- The `<option>` values of the status filter select
(`edit.$slug.tsx` lines 557–567). -/
def statusSelectOptions : List String := ["all", "pending", "approved"]

/-- The query parameters built by `getAllComments`
(`api/client.ts` lines 109–121): `page`, `per_page`, and — when a status
is given — `status`. -/
def getAllCommentsParams (page perPage : Nat) (status : Option StatusFilter) :
    List (String × String) :=
  [("page", toString page), ("per_page", toString perPage)] ++
    (match status with
      | none => []
      | some s => [("status", filterValue s)])

/-- C5: the moderator listing's status filter ranges over exactly
`all`, `pending`, `approved`; every filter value serializes into the
select's three options, and `rejected` is not a selectable option. -/
theorem status_filter_three_valued :
    (∀ f : StatusFilter, f = .all ∨ f = .pending ∨ f = .approved) ∧
    (∀ f : StatusFilter, filterValue f ∈ statusSelectOptions) ∧
    "rejected" ∉ statusSelectOptions ∧
    (∀ (p pp : Nat) (f : StatusFilter),
      ("status", filterValue f) ∈ getAllCommentsParams p pp (some f)) := by
  refine ⟨?_, ?_, ?_, ?_⟩
  · intro f; cases f <;> simp
  · intro f; cases f <;> simp [filterValue, statusSelectOptions]
  · simp [statusSelectOptions]
  · intro p pp f
    simp [getAllCommentsParams]

/-! ## Comment submission (`CommentForm.handleSubmit`, PostEditor.tsx 493–535) -/

/-- JavaScript's `String.prototype.trim`: strip leading and trailing
whitespace (kernel-reducible embedding over the character list). -/
def jsTrim (s : String) : String :=
  List.asString
    (((s.toList.dropWhile Char.isWhitespace).reverse.dropWhile
        Char.isWhitespace).reverse)

/-- The request body of `createComment` (`CommentCreate` in `types.ts`
lines 66–74), as `handleSubmit` builds it. -/
structure CommentCreate where
  author_name : String
  author_email : Option String
  content : String
  parent_id : Option Nat
  honeypot : String
  form_timestamp : Nat
  deriving DecidableEq, Repr

/-- Which Spam Gate check rejected the submission — internal to the
engine (spec §4.2); the browser only sees a thrown request error. -/
inductive SpamReason : Type where
  | honeypotTripped
  | tooFast
  | rateLimited
  deriving DecidableEq, Repr

/-- The server's answer to `createComment`: the created comment, or a
thrown error (any spam-gate rejection reaches the form as a throw). -/
inductive ServerReply : Type where
  | created (c : Comment)
  | rejected (reason : SpamReason)

/-- What the submitter observes from one `handleSubmit` run. -/
inductive SubmitOutcome : Type where
  | validationError (message : String)
  | published (toastKey toastKind : String)
  | held (toastKey toastKind : String)
  | genericError (message : String)
  deriving DecidableEq, Repr

/-- Embedding of `CommentForm.handleSubmit` (PostEditor.tsx lines 493–535), with the
network modelled as an oracle `server`.  Returns the submitter-visible
outcome together with the list of requests actually issued (empty when
the early validation return fires, before any side effect).  Mirrors the
source: blank (trimmed-empty) name or content short-circuits to
`comments.validationError`; otherwise the trimmed payload is sent; a
created comment with `is_approved` shows the `comments.commentAdded`
success toast, one without shows the `comments.awaitingApproval` info
toast; any thrown error lands in the catch branch, which discards the
error object and shows `comments.error`. -/
def handleSubmit (name email content honeypot : String) (formTimestamp : Nat)
    (parentId : Option Nat) (server : CommentCreate → ServerReply) :
    SubmitOutcome × List CommentCreate :=
  if jsTrim name = "" || jsTrim content = "" then
    (.validationError "comments.validationError", [])
  else
    let payload : CommentCreate :=
      { author_name := jsTrim name
        author_email := if jsTrim email = "" then none else some (jsTrim email)
        content := jsTrim content
        parent_id := parentId
        honeypot := honeypot
        form_timestamp := formTimestamp }
    match server payload with
    | .created c =>
        if c.is_approved then
          (.published "comments.commentAdded" "success", [payload])
        else
          (.held "comments.awaitingApproval" "info", [payload])
    | .rejected _ => (.genericError "comments.error", [payload])

/-- C6: a submission with a blank required field (author name or content)
is rejected synchronously — no request is issued, whatever the server
would answer — with the validation message, which differs from the
generic spam-failure message. -/
theorem blank_required_field_rejected_before_side_effect
    (name email content honeypot : String) (formTimestamp : Nat)
    (parentId : Option Nat) (server : CommentCreate → ServerReply)
    (h : jsTrim name = "" ∨ jsTrim content = "") :
    handleSubmit name email content honeypot formTimestamp parentId server =
      (.validationError "comments.validationError", []) ∧
    "comments.validationError" ≠ "comments.error" := by
  constructor
  · unfold handleSubmit
    rcases h with h | h <;> simp [h]
  · decide

theorem blank_required_field_rejected_before_side_effect_witness :
    (jsTrim "   " = "" ∨ jsTrim "hello" = "") ∧
    (handleSubmit "   " "" "hello" "" 0 none
        (fun _ => ServerReply.created (mkC 1 true [])) =
      (.validationError "comments.validationError", []) ∧
    "comments.validationError" ≠ "comments.error") :=
  ⟨Or.inl (by decide),
    blank_required_field_rejected_before_side_effect "   " "" "hello" "" 0 none
      (fun _ => ServerReply.created (mkC 1 true [])) (Or.inl (by decide))⟩

/-- C7: when the server stores the comment but leaves it not approved,
the submission still succeeds — the request was issued and the form shows
the held-for-approval acknowledgement — and that signal is distinct from
the published one shown for an approved comment. -/
theorem pending_submission_succeeds_with_held_signal
    (name email content honeypot : String) (formTimestamp : Nat)
    (parentId : Option Nat) (c : Comment)
    (hname : jsTrim name ≠ "") (hcontent : jsTrim content ≠ "")
    (hpending : c.is_approved = false) :
    (handleSubmit name email content honeypot formTimestamp parentId
        (fun _ => ServerReply.created c)).1 =
      .held "comments.awaitingApproval" "info" ∧
    (handleSubmit name email content honeypot formTimestamp parentId
        (fun _ => ServerReply.created c)).2 ≠ [] ∧
    (SubmitOutcome.held "comments.awaitingApproval" "info" ≠
      SubmitOutcome.published "comments.commentAdded" "success") := by
  unfold handleSubmit
  simp [hname, hcontent, hpending]

theorem pending_submission_succeeds_with_held_signal_witness :
    (jsTrim "alice" ≠ "" ∧ jsTrim "hi" ≠ "" ∧
      (mkC 9 false []).is_approved = false) ∧
    ((handleSubmit "alice" "" "hi" "" 0 none
        (fun _ => ServerReply.created (mkC 9 false []))).1 =
      .held "comments.awaitingApproval" "info" ∧
    (handleSubmit "alice" "" "hi" "" 0 none
        (fun _ => ServerReply.created (mkC 9 false []))).2 ≠ [] ∧
    (SubmitOutcome.held "comments.awaitingApproval" "info" ≠
      SubmitOutcome.published "comments.commentAdded" "success")) :=
  ⟨⟨by decide, by decide, rfl⟩,
    pending_submission_succeeds_with_held_signal "alice" "" "hi" "" 0 none
      (mkC 9 false []) (by decide) (by decide) rfl⟩

/-- C8: two submissions rejected by different Spam Gate checks produce
identical outward responses — the submitter-visible outcome does not
depend on which check triggered (the catch branch discards the error and
shows the one generic `comments.error` message). -/
theorem spam_rejections_indistinguishable
    (name email content honeypot : String) (formTimestamp : Nat)
    (parentId : Option Nat) (r₁ r₂ : SpamReason) :
    handleSubmit name email content honeypot formTimestamp parentId
        (fun _ => ServerReply.rejected r₁) =
      handleSubmit name email content honeypot formTimestamp parentId
        (fun _ => ServerReply.rejected r₂) := by
  unfold handleSubmit
  by_cases h : (jsTrim name = "" || jsTrim content = "") = true <;> simp [h]

/-! ## Sliding-window rate limiter (spec §4.1)

Modelled from the spec: the Rate Limiter is part of the Python backend,
which is not among the given sources.  Spec §4.1: per key, an ordered
sequence of event timestamps; on each call drop timestamps older than
`now - window`, then check `count < limit`; if allowed append `now` and
return true, else return false — prune, check and append forming one
atomic unit, with concurrent callers for the same key linearized.  The
mandated per-key linearization means every concurrent execution is
equivalent to some sequential trace of call times for that key, which is
what `allowedTimes` runs. -/

/-- Modelled from the spec: drop the timestamps older than
`now - window` (spec §4.1). -/
def pruneOld (window now : Nat) (ts : List Nat) : List Nat :=
  ts.filter (fun t => now - window ≤ t)

/-- Modelled from the spec: `tryConsume` for one key (spec §4.1) — prune,
check `count < limit`, append `now` when allowed; returns the allowed
flag and the new timestamp list. -/
def tryConsume (limit window : Nat) (ts : List Nat) (now : Nat) :
    Bool × List Nat :=
  let live := pruneOld window now ts
  if live.length < limit then (true, live ++ [now]) else (false, live)

/-- The call times that a sequential (per-key linearized) trace of
`tryConsume` calls answers `true`, starting from timestamp list `ts`. -/
def allowedTimes (limit window : Nat) : List Nat → List Nat → List Nat
  | _, [] => []
  | ts, now :: rest =>
      match tryConsume limit window ts now with
      | (true, ts') => now :: allowedTimes limit window ts' rest
      | (false, ts') => allowedTimes limit window ts' rest

theorem allowedTimes_filter_lt (limit window : Nat) :
    ∀ (calls acc ts : List Nat) (ν : Nat),
      ts = acc.filter (fun t => ν - window ≤ t) →
      (∀ c ∈ calls, ν ≤ c) →
      calls.Pairwise (· ≤ ·) →
      ∀ s₁ σ s₂, allowedTimes limit window ts calls = s₁ ++ σ :: s₂ →
        ((acc ++ s₁).filter (fun t => σ - window ≤ t)).length < limit := by
  intro calls
  induction calls with
  | nil =>
      intro acc ts ν hts hle hpw s₁ σ s₂ heq
      rw [allowedTimes] at heq
      exact absurd heq (by cases s₁ <;> simp)
  | cons now rest ih =>
      intro acc ts ν hts hle hpw s₁ σ s₂ heq
      have hν : ν ≤ now := hle now (List.mem_cons_self now rest)
      have hlive : pruneOld window now ts =
          acc.filter (fun t => now - window ≤ t) := by
        rw [hts]
        unfold pruneOld
        rw [List.filter_filter]
        apply List.filter_congr
        intro x _
        have hmw : ν - window ≤ now - window := Nat.sub_le_sub_right hν window
        by_cases h : now - window ≤ x
        · have h2 : ν - window ≤ x := le_trans hmw h
          simp [h, h2]
        · simp [h]
      rw [List.pairwise_cons] at hpw
      obtain ⟨hpw1, hpw2⟩ := hpw
      by_cases hcase : (pruneOld window now ts).length < limit
      · rw [allowedTimes] at heq
        simp only [tryConsume, pruneOld] at heq
        rw [show (ts.filter fun t => now - window ≤ t) = pruneOld window now ts
          from rfl] at heq
        rw [if_pos hcase] at heq
        cases s₁ with
        | nil =>
            simp only [List.nil_append, List.cons.injEq] at heq
            obtain ⟨hσ, -⟩ := heq
            subst hσ
            rw [List.append_nil, ← hlive]
            exact hcase
        | cons a s₁' =>
            simp only [List.cons_append, List.cons.injEq] at heq
            obtain ⟨ha, heq'⟩ := heq
            subst ha
            have hts' : pruneOld window now ts ++ [now] =
                (acc ++ [now]).filter (fun t => now - window ≤ t) := by
              rw [List.filter_append, hlive]
              congr 1
              simp [Nat.sub_le]
            have hres := ih (acc ++ [now]) (pruneOld window now ts ++ [now])
              now hts' hpw1 hpw2 s₁' σ s₂ heq'
            rw [List.append_assoc] at hres
            simpa using hres
      · rw [allowedTimes] at heq
        simp only [tryConsume, pruneOld] at heq
        rw [show (ts.filter fun t => now - window ≤ t) = pruneOld window now ts
          from rfl] at heq
        rw [if_neg hcase] at heq
        exact ih acc (pruneOld window now ts) now hlive hpw1 hpw2 s₁ σ s₂ heq

theorem filter_window_bounded (limit window : Nat) :
    ∀ S : List Nat,
      (∀ s₁ σ s₂, S = s₁ ++ σ :: s₂ →
        (s₁.filter (fun t => σ - window ≤ t)).length < limit) →
      ∀ a, (S.filter (fun t => a ≤ t && t ≤ a + window)).length ≤ limit := by
  intro S
  induction S using List.reverseRecOn with
  | nil => intro _ a; simp
  | append_singleton s' σ ih =>
      intro hsplit a
      rw [List.filter_append]
      by_cases h1 : a ≤ σ
      · by_cases h2 : σ ≤ a + window
        · have hfσ : List.filter (fun t => a ≤ t && t ≤ a + window) [σ] = [σ] := by
            simp [h1, h2]
          rw [hfσ, List.length_append]
          have hsub : (s'.filter (fun t => a ≤ t && t ≤ a + window)).length ≤
              (s'.filter (fun t => σ - window ≤ t)).length := by
            rw [← List.countP_eq_length_filter, ← List.countP_eq_length_filter]
            apply List.countP_mono_left
            intro x _ hpx
            simp only [Bool.and_eq_true, decide_eq_true_eq] at hpx
            simp only [decide_eq_true_eq]
            omega
          have hlt : (s'.filter (fun t => σ - window ≤ t)).length < limit :=
            hsplit s' σ [] (by simp)
          simp only [List.length_singleton]
          omega
        · have hfσ : List.filter (fun t => a ≤ t && t ≤ a + window) [σ] = [] := by
            simp [h2]
          rw [hfσ, List.append_nil]
          exact ih (fun s₁ τ s₂ hs => hsplit s₁ τ (s₂ ++ [σ]) (by rw [hs]; simp)) a
      · have hfσ : List.filter (fun t => a ≤ t && t ≤ a + window) [σ] = [] := by
          simp [h1]
        rw [hfσ, List.append_nil]
        exact ih (fun s₁ τ s₂ hs => hsplit s₁ τ (s₂ ++ [σ]) (by rw [hs]; simp)) a

/-- C9: for any (per-key linearized) sequence of `tryConsume` calls with
nondecreasing call times, at most `limit` calls are allowed within any
closed interval of length `window` — the (limit+1)-th event inside a
window is never allowed. -/
theorem rate_limiter_window_sound (limit window : Nat) (calls : List Nat)
    (hmono : calls.Pairwise (· ≤ ·)) (a : Nat) :
    ((allowedTimes limit window [] calls).filter
        (fun t => a ≤ t && t ≤ a + window)).length ≤ limit := by
  apply filter_window_bounded
  intro s₁ σ s₂ heq
  have hres := allowedTimes_filter_lt limit window calls [] [] 0 (by simp)
    (fun c _ => Nat.zero_le c) hmono s₁ σ s₂ heq
  simpa using hres

theorem rate_limiter_window_sound_witness :
    ([0, 1, 2] : List Nat).Pairwise (· ≤ ·) ∧
    ((allowedTimes 1 100 [] [0, 1, 2]).filter
        (fun t => 0 ≤ t && t ≤ 0 + 100)).length ≤ 1 :=
  ⟨by decide, rate_limiter_window_sound 1 100 [0, 1, 2] (by decide) 0⟩
